import Mathlib

/-
Verification of the tcptalk chat system: a shallow embedding of the
server (src/server/src/main.rs) and the client (the module-less
monolith src/client/src/main.rs, which is the whole compiled client
crate; src/client/src/app.rs and src/client/src/events.rs duplicate
most of its arms verbatim but are referenced by no `mod` declaration)
together with proofs about the broadcast engine, the username
handshake, the connection handler and the client-side
parsing/sending/reading paths.

Modelling conventions:
* a TCP peer address (`SocketAddr`) is an opaque `Nat`;
* the registry `HashMap<SocketAddr, Client>` is an association list of
  `(address, username)` pairs; the `TcpStream` write handle of a session
  is replaced by an oracle `writeFails : Nat → Bool` saying whether a
  `write_all`/`flush` to that session's stream fails during a pass;
* byte buffers are `List Nat` (one `Nat` per byte), decoded strings are
  Lean `String`s.
-/

namespace TcpTalk

/-- Code points with the Unicode White_Space property, exactly the set
accepted by rust `char::is_whitespace`. -/
def rustIsWhitespace (c : Char) : Bool :=
  let n := c.toNat
  (decide (9 ≤ n) && decide (n ≤ 13)) || decide (n = 32) || decide (n = 0x85) ||
  decide (n = 0xA0) || decide (n = 0x1680) ||
  (decide (0x2000 ≤ n) && decide (n ≤ 0x200A)) || decide (n = 0x2028) ||
  decide (n = 0x2029) || decide (n = 0x202F) || decide (n = 0x205F) || decide (n = 0x3000)

/-- Drop leading whitespace, as the front half of rust `str::trim`. -/
def trimLeftChars (l : List Char) : List Char := l.dropWhile rustIsWhitespace

/-- Drop trailing whitespace, as the back half of rust `str::trim`. -/
def trimRightChars (l : List Char) : List Char :=
  (l.reverse.dropWhile rustIsWhitespace).reverse

/-- Model of rust `str::trim`: remove leading and trailing whitespace. -/
def rustTrim (s : String) : String := ⟨trimRightChars (trimLeftChars s.data)⟩

/-- ASCII lower-casing of one byte or code point, as rust
`u8::to_ascii_lowercase`. -/
def lowerByte (n : Nat) : Nat := if 65 ≤ n ∧ n ≤ 90 then n + 32 else n

/-- Model of rust `str::eq_ignore_ascii_case`: the two strings are equal
after ASCII-lower-casing each code point.  (Rust compares UTF-8 bytes;
ASCII lower-casing touches only single-byte code points and UTF-8
encoding is injective, so comparing scalar-value sequences is
equivalent.) -/
def eqIgnoreAsciiCase (a b : String) : Bool :=
  a.data.map (fun c => lowerByte c.toNat) == b.data.map (fun c => lowerByte c.toNat)

/-- The server's shared `HashMap<SocketAddr, Client>`: each live session
is an `(address, username)` pair. -/
abbrev Registry := List (Nat × String)

/-- The `username_taken` check of `get_username`: some registered client
has a case-insensitively equal username. -/
def username_taken (reg : Registry) (username : String) : Bool :=
  reg.any fun p => eqIgnoreAsciiCase p.2 username

/-- The for-loop of `broadcast_message`: walk the registry in iteration
order; a session is written to when `include_sender || addr != sender`;
a failing write or flush puts the address on the `to_remove` list,
otherwise the session received the payload.  Returns
`(delivered addresses, to_remove addresses)`. -/
def broadcastPass (sender : Nat) (include_sender : Bool) (writeFails : Nat → Bool) :
    Registry → List Nat × List Nat
  | [] => ([], [])
  | (addr, _) :: rest =>
    if include_sender || addr != sender then
      if writeFails addr then
        let r := broadcastPass sender include_sender writeFails rest
        (r.1, addr :: r.2)
      else
        let r := broadcastPass sender include_sender writeFails rest
        (addr :: r.1, r.2)
    else
      broadcastPass sender include_sender writeFails rest

/-- The removal loop at the end of `broadcast_message`: delete every
registry entry whose address was marked during the pass. -/
def removeAll (reg : Registry) (addrs : List Nat) : Registry :=
  reg.filter fun p => !(addrs.contains p.1)

/-- Model of `broadcast_message` (src/server/src/main.rs lines 14-45):
one full pass over the registry followed by the deferred removals; the
function ends with `Ok(())`, so the result is always `Except.ok`,
carrying the new registry and the addresses that received `message`. -/
def broadcast_message (message : String) (sender : Nat) (reg : Registry)
    (include_sender : Bool) (writeFails : Nat → Bool) :
    Except Unit (Registry × List Nat) :=
  let r := broadcastPass sender include_sender writeFails reg
  Except.ok (removeAll reg r.2, r.1)

section BroadcastLemmas

/-- With no write failures the pass delivers to exactly the selected
sessions, in iteration order, and marks nothing for removal. -/
theorem broadcastPass_no_failure (sender : Nat) (inc : Bool) (wf : Nat → Bool)
    (hwf : ∀ a, wf a = false) (reg : Registry) :
    broadcastPass sender inc wf reg =
      ((reg.filter fun p => inc || p.1 != sender).map Prod.fst, []) := by
  induction reg with
  | nil => rfl
  | cons hd tl ih =>
    obtain ⟨addr, u⟩ := hd
    by_cases hsel : (inc || addr != sender) = true
    · simp [broadcastPass, hsel, hwf addr, ih, List.filter_cons]
    · have hsel2 : (inc || addr != sender) = false := by
        simpa using hsel
      simp [broadcastPass, hsel2, ih, List.filter_cons]

/-- Removing the empty removal list leaves the registry unchanged. -/
theorem removeAll_nil (reg : Registry) : removeAll reg [] = reg := by
  simp [removeAll]

/-- A selected session whose write fails is marked for removal. -/
theorem mem_toRemove_of_fail (sender : Nat) (inc : Bool) (wf : Nat → Bool)
    (reg : Registry) (x : Nat × String) (hx : x ∈ reg)
    (hsel : (inc || x.1 != sender) = true) (hf : wf x.1 = true) :
    x.1 ∈ (broadcastPass sender inc wf reg).2 := by
  induction reg with
  | nil => cases hx
  | cons hd tl ih =>
    obtain ⟨addr, u⟩ := hd
    rcases List.mem_cons.mp hx with rfl | hmem
    · simp [broadcastPass, hsel, hf]
    · by_cases hsel2 : (inc || addr != sender) = true
      · by_cases hf2 : wf addr = true
        · simp only [broadcastPass, hsel2, if_true, hf2]
          simpa using Or.inr (ih hmem)
        · have hf3 : wf addr = false := by simpa using hf2
          simp only [broadcastPass, hsel2, if_true, hf3]
          simpa using ih hmem
      · have hsel3 : (inc || addr != sender) = false := by simpa using hsel2
        simp only [broadcastPass, hsel3]
        simpa using ih hmem

/-- A selected session whose write succeeds receives the payload. -/
theorem mem_delivered_of_ok (sender : Nat) (inc : Bool) (wf : Nat → Bool)
    (reg : Registry) (y : Nat × String) (hy : y ∈ reg)
    (hsel : (inc || y.1 != sender) = true) (hf : wf y.1 = false) :
    y.1 ∈ (broadcastPass sender inc wf reg).1 := by
  induction reg with
  | nil => cases hy
  | cons hd tl ih =>
    obtain ⟨addr, u⟩ := hd
    rcases List.mem_cons.mp hy with rfl | hmem
    · simp [broadcastPass, hsel, hf]
    · by_cases hsel2 : (inc || addr != sender) = true
      · by_cases hf2 : wf addr = true
        · simp only [broadcastPass, hsel2, if_true, hf2]
          simpa using ih hmem
        · have hf3 : wf addr = false := by simpa using hf2
          simp only [broadcastPass, hsel2, if_true, hf3]
          simpa using Or.inr (ih hmem)
      · have hsel3 : (inc || addr != sender) = false := by simpa using hsel2
        simp only [broadcastPass, hsel3]
        simpa using ih hmem

/-- No address marked for removal survives `removeAll`. -/
theorem not_mem_removeAll (reg : Registry) (addrs : List Nat) (a : Nat)
    (ha : a ∈ addrs) : a ∉ (removeAll reg addrs).map Prod.fst := by
  intro hmem
  rcases List.mem_map.mp hmem with ⟨q, hq, rfl⟩
  have := List.of_mem_filter hq
  simp at this
  exact this ha

/-- With `include_sender = false`, the sender is never among the
delivered addresses. -/
theorem sender_not_delivered (sender : Nat) (wf : Nat → Bool) (reg : Registry) :
    sender ∉ (broadcastPass sender false wf reg).1 := by
  induction reg with
  | nil => simp [broadcastPass]
  | cons hd tl ih =>
    obtain ⟨addr, u⟩ := hd
    by_cases hsel : (false || addr != sender) = true
    · have hne : addr ≠ sender := by simpa using hsel
      by_cases hf : wf addr = true
      · simp only [broadcastPass, hsel, if_true, hf]
        exact ih
      · have hf3 : wf addr = false := by simpa using hf
        simp only [broadcastPass, hsel, if_true, hf3]
        intro hmem
        simp at hmem
        rcases hmem with h | h
        · exact hne h.symm
        · exact ih h
    · have hsel3 : (false || addr != sender) = false := by simpa using hsel
      simp only [broadcastPass, hsel3]
      simpa using ih

end BroadcastLemmas

/-- Length of the registry restricted to non-sender entries, when the
sender occurs among pairwise-distinct addresses. -/
theorem length_filter_ne_sender (sender : Nat) (reg : Registry)
    (hnodup : (reg.map Prod.fst).Nodup) (hmem : sender ∈ reg.map Prod.fst) :
    ((reg.filter fun p => p.1 != sender).map Prod.fst).length = reg.length - 1 := by
  induction reg with
  | nil => cases hmem
  | cons hd tl ih =>
    obtain ⟨addr, u⟩ := hd
    simp only [List.map_cons, List.nodup_cons] at hnodup
    by_cases heq : addr = sender
    · subst heq
      have hall : tl.filter (fun p => p.1 != addr) = tl := by
        apply List.filter_eq_self.mpr
        intro p hp
        have : p.1 ∈ tl.map Prod.fst := List.mem_map.mpr ⟨p, hp, rfl⟩
        simp only [bne_iff_ne, ne_eq, decide_eq_true_eq]
        intro hcontra
        exact hnodup.1 (hcontra ▸ this)
      simp [List.filter_cons, hall]
    · have hmem2 : sender ∈ tl.map Prod.fst := by
        rcases List.mem_cons.mp hmem with h | h
        · exact absurd h.symm heq
        · exact h
      have htl : 0 < tl.length := by
        rcases List.mem_map.mp hmem2 with ⟨p, hp, _⟩
        exact List.length_pos.mpr (List.ne_nil_of_mem hp)
      have hne : (addr != sender) = true := by simpa using heq
      simp only [List.filter_cons, hne, if_true, List.map_cons, List.length_cons,
        List.length_cons, ih hnodup.2 hmem2]
      omega

/-- C1: for every registry of N sessions with pairwise-distinct
addresses that contains the sender, and no write failures, broadcasting
with `include_sender = false` delivers the payload to exactly the N−1
sessions other than the sender and leaves the registry unchanged, while
`include_sender = true` delivers to all N sessions. -/
theorem broadcast_counts (message : String) (sender : Nat) (reg : Registry)
    (wf : Nat → Bool) (hnodup : (reg.map Prod.fst).Nodup)
    (hmem : sender ∈ reg.map Prod.fst) (hwf : ∀ a, wf a = false) :
    (broadcast_message message sender reg false wf =
        Except.ok (reg, (reg.filter fun p => p.1 != sender).map Prod.fst) ∧
      ((reg.filter fun p => p.1 != sender).map Prod.fst).length = reg.length - 1) ∧
    (broadcast_message message sender reg true wf =
        Except.ok (reg, reg.map Prod.fst) ∧
      (reg.map Prod.fst).length = reg.length) := by
  refine ⟨⟨?_, length_filter_ne_sender sender reg hnodup hmem⟩, ⟨?_, by simp⟩⟩
  · simp [broadcast_message, broadcastPass_no_failure sender false wf hwf reg,
      removeAll_nil]
  · simp [broadcast_message, broadcastPass_no_failure sender true wf hwf reg,
      removeAll_nil]

/-- Witness for C1 on a concrete three-session registry with sender at
address 0: exactly sessions 1 and 2 receive the excluded-sender
broadcast, and all three receive the inclusive one. -/
theorem broadcast_counts_witness :
    (broadcast_message "hi" 0 [(0, "a"), (1, "b"), (2, "c")] false (fun _ => false) =
        Except.ok ([(0, "a"), (1, "b"), (2, "c")],
          (([(0, "a"), (1, "b"), (2, "c")] : Registry).filter
            fun p => p.1 != 0).map Prod.fst) ∧
      ((([(0, "a"), (1, "b"), (2, "c")] : Registry).filter
            fun p => p.1 != 0).map Prod.fst).length =
        ([(0, "a"), (1, "b"), (2, "c")] : Registry).length - 1) ∧
    (broadcast_message "hi" 0 [(0, "a"), (1, "b"), (2, "c")] true (fun _ => false) =
        Except.ok ([(0, "a"), (1, "b"), (2, "c")],
          ([(0, "a"), (1, "b"), (2, "c")] : Registry).map Prod.fst) ∧
      (([(0, "a"), (1, "b"), (2, "c")] : Registry).map Prod.fst).length =
        ([(0, "a"), (1, "b"), (2, "c")] : Registry).length) :=
  broadcast_counts "hi" 0 [(0, "a"), (1, "b"), (2, "c")] (fun _ => false)
    (by decide) (by decide) (fun _ => rfl)

/-- C2: broadcast always returns success; and in the pass, a selected
session whose write or flush fails is absent from the registry when the
call returns, while every other selected session whose write succeeds
still receives the payload, one session's failure never affecting the
rest. -/
theorem broadcast_failure_isolation (message : String) (sender : Nat)
    (reg : Registry) (inc : Bool) (wf : Nat → Bool) :
    (broadcast_message message sender reg inc wf).isOk = true ∧
    ∀ newReg delivered,
      broadcast_message message sender reg inc wf = Except.ok (newReg, delivered) →
      (∀ x ∈ reg, (inc || x.1 != sender) = true → wf x.1 = true →
        x.1 ∉ newReg.map Prod.fst) ∧
      (∀ y ∈ reg, (inc || y.1 != sender) = true → wf y.1 = false →
        y.1 ∈ delivered) := by
  refine ⟨rfl, ?_⟩
  intro newReg delivered h
  simp only [broadcast_message, Except.ok.injEq, Prod.mk.injEq] at h
  obtain ⟨hreg, hdel⟩ := h
  constructor
  · intro x hx hsel hf
    rw [← hreg]
    exact not_mem_removeAll reg _ x.1 (mem_toRemove_of_fail sender inc wf reg x hx hsel hf)
  · intro y hy hsel hf
    rw [← hdel]
    exact mem_delivered_of_ok sender inc wf reg y hy hsel hf

/-- Witness for C2: sender 0, registry of sessions 0,1,2 where only the
write to session 1 fails: session 1 is gone from the returned registry
and session 2 still received the payload. -/
theorem broadcast_failure_isolation_witness :
    (broadcast_message "hi" 0 [(0, "a"), (1, "b"), (2, "c")] false (fun a => a == 1)).isOk
        = true ∧
      (1 : Nat) ∉
        (([(0, "a"), (2, "c")] : Registry).map Prod.fst) ∧
      (2 : Nat) ∈ ([2] : List Nat) := by
  have h := broadcast_failure_isolation "hi" 0 [(0, "a"), (1, "b"), (2, "c")] false
    (fun a => a == 1)
  refine ⟨h.1, ?_, ?_⟩
  · have h2 := (h.2 [(0, "a"), (2, "c")] [2] (by rfl)).1 (1, "b") (by decide)
      (by decide) (by decide)
    simpa using h2
  · have h3 := (h.2 [(0, "a"), (2, "c")] [2] (by rfl)).2 (2, "c") (by decide)
      (by decide) (by decide)
    simpa using h3

section TrimLemmas

/-- The right trim is Mathlib's `rdropWhile` on whitespace. -/
theorem trimRightChars_eq_rdropWhile (l : List Char) :
    trimRightChars l = l.rdropWhile rustIsWhitespace := rfl

/-- A prefix of a list with no leading whitespace has no leading
whitespace either. -/
theorem dropWhile_eq_self_of_pref {t m : List Char}
    (hpref : t <+: m) (hm : m.dropWhile rustIsWhitespace = m) :
    t.dropWhile rustIsWhitespace = t := by
  obtain ⟨r, rfl⟩ := hpref
  cases t with
  | nil => rfl
  | cons a t2 =>
    have ha : ¬rustIsWhitespace a := by
      have := List.dropWhile_eq_self_iff.mp hm (by simp)
      simpa using this
    simp [List.dropWhile_cons, ha]

/-- rust `str::trim` is idempotent. -/
theorem rustTrim_idempotent (s : String) : rustTrim (rustTrim s) = rustTrim s := by
  unfold rustTrim
  congr 1
  simp only [trimRightChars_eq_rdropWhile, trimLeftChars]
  have h1 : (s.data.dropWhile rustIsWhitespace).rdropWhile rustIsWhitespace <+:
      s.data.dropWhile rustIsWhitespace := List.rdropWhile_prefix _ _
  have h2 : (s.data.dropWhile rustIsWhitespace).dropWhile rustIsWhitespace =
      s.data.dropWhile rustIsWhitespace := List.dropWhile_idempotent _ _
  rw [dropWhile_eq_self_of_pref h1 h2, List.rdropWhile_idempotent]

/-- A trimmed string is unchanged by trimming again; stated via the
underlying character list. -/
theorem rustTrim_data (s : String) :
    (rustTrim s).data = trimRightChars (trimLeftChars s.data) := rfl

end TrimLemmas

/-- Outcome of validating one candidate username inside the
`get_username` loop, in the order the code checks: empty first, then the
reserved name, then collision with a registered username. -/
inductive ValidationResult where
  | rejectEmpty : ValidationResult
  | rejectReserved : ValidationResult
  | rejectTaken : ValidationResult
  | accepted : String → ValidationResult
deriving DecidableEq

/-- One iteration body of `get_username` (src/server/src/main.rs lines
55-79): trim the decoded read, then check non-empty, not reserved, not
taken, in that order. -/
def validate_candidate (reg : Registry) (cand : String) : ValidationResult :=
  let username := rustTrim cand
  if username = "" then ValidationResult.rejectEmpty
  else if eqIgnoreAsciiCase username "System" then ValidationResult.rejectReserved
  else if username_taken reg username then ValidationResult.rejectTaken
  else ValidationResult.accepted username

/-- The rejection line the server writes back for each failed
validation; `none` when the candidate is accepted. -/
def rejection_message : ValidationResult → Option String
  | ValidationResult.rejectEmpty => some "Username cannot be empty. Please try again.\n"
  | ValidationResult.rejectReserved =>
      some "Username \x27System\x27 is reserved. Please choose another.\n"
  | ValidationResult.rejectTaken =>
      some "Username is already taken. Please choose another.\n"
  | ValidationResult.accepted _ => none

/-- Model of the `get_username` loop over the sequence of decoded client
responses: each rejected candidate is answered with its rejection
message and the loop re-prompts; the first accepted candidate is
returned.  `none` models a connection that never supplies a valid
candidate. -/
def get_username (reg : Registry) : List String → Option String
  | [] => none
  | cand :: rest =>
    match validate_candidate reg cand with
    | ValidationResult.accepted u => some u
    | _ => get_username reg rest

/-- An accepted validation pins down every property of the result. -/
theorem validate_candidate_accepted (reg : Registry) (cand u : String)
    (h : validate_candidate reg cand = ValidationResult.accepted u) :
    u = rustTrim cand ∧ u ≠ "" ∧ eqIgnoreAsciiCase u "System" = false ∧
      username_taken reg u = false := by
  unfold validate_candidate at h
  by_cases h1 : rustTrim cand = ""
  · simp [h1] at h
  · by_cases h2 : eqIgnoreAsciiCase (rustTrim cand) "System" = true
    · simp [h1, h2] at h
    · by_cases h3 : username_taken reg (rustTrim cand) = true
      · simp [h1, h2, h3] at h
      · simp [h1, h2, h3] at h
        subst h
        exact ⟨rfl, h1, by simpa using h2, by simpa using h3⟩

/-- C3: every username the handshake returns is non-empty after
trimming, never case-insensitively "System", and never case-insensitively
equal to a username present in the registry at the time of the check;
the reserved candidates are rejected with the reserved-name message in
every registry state, and an empty or whitespace-only candidate is
rejected with the empty-name message and skipped, never returned. -/
theorem get_username_spec :
    (∀ (reg : Registry) (resps : List String) (u : String),
      get_username reg resps = some u →
        rustTrim u = u ∧ u ≠ "" ∧ eqIgnoreAsciiCase u "System" = false ∧
        ∀ p ∈ reg, eqIgnoreAsciiCase p.2 u = false) ∧
    (∀ reg : Registry,
      validate_candidate reg "system" = ValidationResult.rejectReserved ∧
      validate_candidate reg "System" = ValidationResult.rejectReserved ∧
      validate_candidate reg "SYSTEM" = ValidationResult.rejectReserved ∧
      rejection_message (validate_candidate reg "system") =
        some "Username \x27System\x27 is reserved. Please choose another.\n") ∧
    (∀ (reg : Registry) (cand : String), rustTrim cand = "" →
      validate_candidate reg cand = ValidationResult.rejectEmpty ∧
      rejection_message (validate_candidate reg cand) =
        some "Username cannot be empty. Please try again.\n" ∧
      ∀ rest, get_username reg (cand :: rest) = get_username reg rest) ∧
    (∀ (reg : Registry) (cand : String) (rest : List String),
      (∀ u, validate_candidate reg cand ≠ ValidationResult.accepted u) →
      get_username reg (cand :: rest) = get_username reg rest) := by
  refine ⟨?_, ?_, ?_, ?_⟩
  · intro reg resps u h
    induction resps with
    | nil => cases h
    | cons cand rest ih =>
      simp only [get_username] at h
      rcases hv : validate_candidate reg cand with _ | _ | _ | v
      · rw [hv] at h; exact ih h
      · rw [hv] at h; exact ih h
      · rw [hv] at h; exact ih h
      · rw [hv] at h
        simp only [Option.some.injEq] at h
        subst h
        obtain ⟨hu, hne, hsys, htaken⟩ := validate_candidate_accepted reg cand v hv
        refine ⟨by rw [hu, rustTrim_idempotent], hne, hsys, ?_⟩
        intro p hp
        by_contra hcontra
        have : username_taken reg v = true :=
          List.any_eq_true.mpr ⟨p, hp, by simpa using hcontra⟩
        rw [htaken] at this
        cases this
  · intro reg
    have hres : ∀ cand : String, rustTrim cand ≠ "" →
        eqIgnoreAsciiCase (rustTrim cand) "System" = true →
        validate_candidate reg cand = ValidationResult.rejectReserved := by
      intro cand h1 h2
      simp [validate_candidate, h1, h2]
    refine ⟨hres _ (by decide) (by decide), hres _ (by decide) (by decide),
      hres _ (by decide) (by decide), ?_⟩
    rw [hres "system" (by decide) (by decide)]
    rfl
  · intro reg cand h
    have hval : validate_candidate reg cand = ValidationResult.rejectEmpty := by
      simp [validate_candidate, h]
    refine ⟨hval, by simp [hval, rejection_message], ?_⟩
    intro rest
    simp [get_username, hval]
  · intro reg cand rest h
    rcases hv : validate_candidate reg cand with _ | _ | _ | v
    · simp [get_username, hv]
    · simp [get_username, hv]
    · simp [get_username, hv]
    · exact absurd hv (h v)

/-- Witness for C3: with "bob" registered, the responses
whitespace-only, "system", "BOB" and finally " alice " produce the
username "alice", which is trimmed, non-empty, unreserved and untaken;
the reserved and empty candidates are rejected with their messages. -/
theorem get_username_spec_witness :
    (rustTrim "alice" = "alice" ∧ "alice" ≠ "" ∧
      eqIgnoreAsciiCase "alice" "System" = false ∧
      ∀ p ∈ ([(7, "bob")] : Registry), eqIgnoreAsciiCase p.2 "alice" = false) ∧
    validate_candidate [(7, "bob")] "SYSTEM" = ValidationResult.rejectReserved ∧
    validate_candidate [(7, "bob")] " \t\n" = ValidationResult.rejectEmpty := by
  refine ⟨?_, ?_, ?_⟩
  · exact (get_username_spec.1 [(7, "bob")] [" \t\n", "system", "BOB", " alice "]
      "alice" (by decide))
  · exact (get_username_spec.2.1 [(7, "bob")]).2.2.1
  · exact (get_username_spec.2.2.1 [(7, "bob")] " \t\n" (by decide)).1

/-
Interleaving model for the handshake race (C4).  Two connection
handlers run `get_username` followed by the registry insert of
`handle_client`.  In the code the uniqueness check (lines 69-71, which
drops the lock) and the insert (lines 91-98, a fresh lock) are separate
critical sections, so the scheduler may interleave them.  A process is
at program counter 0 before its validation check, 1 after passing
validation but before inserting, 2 once inserted (a live registered
session), and 3 when its candidate was rejected.
-/

/-- Joint state of the registry and the two handshaking connections. -/
structure Hs2 where
  reg : Registry
  pc1 : Nat
  pc2 : Nat
deriving DecidableEq

/-- One scheduler step of the racy code: the chosen process either runs
its validation check (pc 0 → 1 on success, → 3 on rejection) or, having
validated, inserts its trimmed candidate into the registry under a
separately acquired lock (pc 1 → 2). -/
def stepRacy (a1 : Nat) (u1 : String) (a2 : Nat) (u2 : String)
    (s : Hs2) (pickFirst : Bool) : Hs2 :=
  if pickFirst then
    match s.pc1 with
    | 0 =>
      match validate_candidate s.reg u1 with
      | ValidationResult.accepted _ => { s with pc1 := 1 }
      | _ => { s with pc1 := 3 }
    | 1 => { s with reg := (a1, rustTrim u1) :: s.reg, pc1 := 2 }
    | _ => s
  else
    match s.pc2 with
    | 0 =>
      match validate_candidate s.reg u2 with
      | ValidationResult.accepted _ => { s with pc2 := 1 }
      | _ => { s with pc2 := 3 }
    | 1 => { s with reg := (a2, rustTrim u2) :: s.reg, pc2 := 2 }
    | _ => s

/-- Run the racy two-handshake system from an initial state under a
schedule of process choices. -/
def runRacy (a1 : Nat) (u1 : String) (a2 : Nat) (u2 : String)
    (s : Hs2) (sched : List Bool) : Hs2 :=
  sched.foldl (stepRacy a1 u1 a2 u2) s

/-- Registry invariant claimed by C4: no two live sessions have
case-insensitively equal usernames. -/
def usernamesDistinct (reg : Registry) : Prop :=
  reg.Pairwise fun p q => eqIgnoreAsciiCase p.2 q.2 = false

instance : DecidablePred usernamesDistinct := fun reg => by
  unfold usernamesDistinct
  infer_instance

/-- C4 counterexample: from the empty registry, candidates "alice" and
"Alice" both pass validation before either inserts (schedule: check 1,
check 2, insert 1, insert 2); both end registered, and the registry
holds two live sessions with case-insensitively equal usernames. -/
theorem handshake_race_counterexample :
    (runRacy 0 "alice" 1 "Alice" ⟨[], 0, 0⟩ [true, false, true, false]).reg =
        [(1, "Alice"), (0, "alice")] ∧
      (runRacy 0 "alice" 1 "Alice" ⟨[], 0, 0⟩ [true, false, true, false]).pc1 = 2 ∧
      (runRacy 0 "alice" 1 "Alice" ⟨[], 0, 0⟩ [true, false, true, false]).pc2 = 2 ∧
      ¬usernamesDistinct
        (runRacy 0 "alice" 1 "Alice" ⟨[], 0, 0⟩ [true, false, true, false]).reg := by
  refine ⟨by decide, by decide, by decide, ?_⟩
  intro hcontra
  rw [(by decide :
    (runRacy 0 "alice" 1 "Alice" ⟨[], 0, 0⟩ [true, false, true, false]).reg =
      [(1, "Alice"), (0, "alice")])] at hcontra
  have := List.rel_of_pairwise_cons hcontra (List.mem_singleton.mpr rfl)
  revert this
  decide

/-- One atomic step: validation check and insert performed in a single
critical section (pc 0 → 2 inserting on success, 0 → 3 on rejection). -/
def stepAtomic (a1 : Nat) (u1 : String) (a2 : Nat) (u2 : String)
    (s : Hs2) (pickFirst : Bool) : Hs2 :=
  if pickFirst then
    match s.pc1 with
    | 0 =>
      match validate_candidate s.reg u1 with
      | ValidationResult.accepted v => { s with reg := (a1, v) :: s.reg, pc1 := 2 }
      | _ => { s with pc1 := 3 }
    | _ => s
  else
    match s.pc2 with
    | 0 =>
      match validate_candidate s.reg u2 with
      | ValidationResult.accepted v => { s with reg := (a2, v) :: s.reg, pc2 := 2 }
      | _ => { s with pc2 := 3 }
    | _ => s

/-- Run the atomic-check-and-insert variant under a schedule. -/
def runAtomic (a1 : Nat) (u1 : String) (a2 : Nat) (u2 : String)
    (s : Hs2) (sched : List Bool) : Hs2 :=
  sched.foldl (stepAtomic a1 u1 a2 u2) s

/-- The case-insensitive comparison is symmetric. -/
theorem eqIgnoreAsciiCase_symm (a b : String) :
    eqIgnoreAsciiCase a b = eqIgnoreAsciiCase b a := by
  unfold eqIgnoreAsciiCase
  by_cases h : (a.data.map fun c => lowerByte c.toNat) =
      (b.data.map fun c => lowerByte c.toNat)
  · rw [h]
  · have h1 : ((a.data.map fun c => lowerByte c.toNat) ==
        (b.data.map fun c => lowerByte c.toNat)) = false := by simpa using h
    have h2 : ((b.data.map fun c => lowerByte c.toNat) ==
        (a.data.map fun c => lowerByte c.toNat)) = false := by
      simpa using Ne.symm h
    rw [h1, h2]

/-- Inserting an untaken username preserves distinctness. -/
theorem usernamesDistinct_insert (reg : Registry) (a : Nat) (v : String)
    (hd : usernamesDistinct reg) (hfree : username_taken reg v = false) :
    usernamesDistinct ((a, v) :: reg) := by
  refine List.Pairwise.cons ?_ hd
  intro q hq
  have : ¬(eqIgnoreAsciiCase q.2 v = true) := by
    intro hcontra
    have : username_taken reg v = true := List.any_eq_true.mpr ⟨q, hq, hcontra⟩
    rw [hfree] at this
    cases this
  rw [eqIgnoreAsciiCase_symm]
  simpa using this

/-- A single atomic step preserves the distinct-usernames invariant. -/
theorem stepAtomic_preserves (a1 : Nat) (u1 : String) (a2 : Nat) (u2 : String)
    (s : Hs2) (pick : Bool) (hd : usernamesDistinct s.reg) :
    usernamesDistinct (stepAtomic a1 u1 a2 u2 s pick).reg := by
  unfold stepAtomic
  rcases pick with _ | _
  · simp only [Bool.false_eq_true, if_false]
    match h2 : s.pc2 with
    | 0 =>
      rcases hv : validate_candidate s.reg u2 with _ | _ | _ | v
      · exact hd
      · exact hd
      · exact hd
      · obtain ⟨hveq, _, _, hfree⟩ := validate_candidate_accepted s.reg u2 v hv
        exact usernamesDistinct_insert s.reg a2 v hd hfree
    | n + 1 => exact hd
  · simp only [if_true]
    match h1 : s.pc1 with
    | 0 =>
      rcases hv : validate_candidate s.reg u1 with _ | _ | _ | v
      · exact hd
      · exact hd
      · exact hd
      · obtain ⟨hveq, _, _, hfree⟩ := validate_candidate_accepted s.reg u1 v hv
        exact usernamesDistinct_insert s.reg a1 v hd hfree
    | n + 1 => exact hd

/-- C4 amended: with the check and the insert fused into one atomic
critical section, every schedule of the two concurrent handshakes
preserves the invariant that no two registered sessions have
case-insensitively equal usernames. -/
theorem handshake_atomic_no_duplicates (a1 : Nat) (u1 : String) (a2 : Nat)
    (u2 : String) (s : Hs2) (sched : List Bool)
    (hd : usernamesDistinct s.reg) :
    usernamesDistinct (runAtomic a1 u1 a2 u2 s sched).reg := by
  induction sched generalizing s with
  | nil => exact hd
  | cons pick rest ih =>
    exact ih (stepAtomic a1 u1 a2 u2 s pick) (stepAtomic_preserves a1 u1 a2 u2 s pick hd)

/-- Witness for the amended C4: the same schedule that admits duplicate
usernames in the racy model keeps "alice" and "Alice" distinct in the
atomic model (the second handshake is rejected). -/
theorem handshake_atomic_no_duplicates_witness :
    usernamesDistinct
      (runAtomic 0 "alice" 1 "Alice" ⟨[], 0, 0⟩ [true, false, true, false]).reg :=
  handshake_atomic_no_duplicates 0 "alice" 1 "Alice" ⟨[], 0, 0⟩
    [true, false, true, false] (by decide)

/-
Trace model of `handle_client` (src/server/src/main.rs lines 83-132)
after a successful handshake.  Each socket read in the active loop is
one of: a decoded data chunk (`read` returned n > 0, the chunk being the
lossy decoding of `buf[..n]`), end of stream (`read` returned 0), or an
I/O error (which the `?` operator propagates out of the function at
once).  The handler's registry-affecting actions are recorded as a
trace.
-/

/-- A registry-affecting action of the connection handler. -/
inductive SOp where
  | insertSelf : String → SOp
  | broadcast : String → Bool → SOp
  | removeSelf : SOp
  | ret : Bool → SOp
deriving DecidableEq

/-- One socket-read outcome in the active loop. -/
inductive ReadEvt where
  | data : String → ReadEvt
  | eof : ReadEvt
  | ioErr : ReadEvt
deriving DecidableEq

/-- The active relay loop of `handle_client` (lines 106-120) followed by
its epilogue (lines 122-128): a data chunk is formatted
`"<username>: <chunk>"` and broadcast excluding the sender; a zero-byte
read breaks out to the leave broadcast (excluding the sender) and the
registry removal before returning Ok; a read error propagates through
`?`, returning the error immediately without broadcast or removal. -/
def active_loop (username : String) : List ReadEvt → List SOp
  | [] => []
  | ReadEvt.data chunk :: rest =>
      SOp.broadcast (username ++ ": " ++ chunk) false :: active_loop username rest
  | ReadEvt.eof :: _ =>
      [SOp.broadcast (username ++ " has left the chat\n") false,
        SOp.removeSelf, SOp.ret true]
  | ReadEvt.ioErr :: _ => [SOp.ret false]

/-- The handler's trace from the moment `get_username` succeeds with
`username` (lines 91-104): register the session, broadcast the join
notice to all sessions including the sender, then run the active
loop. -/
def handle_client_ops (username : String) (reads : List ReadEvt) : List SOp :=
  SOp.insertSelf username ::
    SOp.broadcast (username ++ " has joined the chat\n") true ::
    active_loop username reads

/-- The active loop on a run of data chunks followed by EOF: one
excluded-sender chat broadcast per chunk, then the leave broadcast
excluding the sender, the registry removal, and a successful return. -/
theorem active_loop_eof (username : String) (chunks : List String)
    (rest : List ReadEvt) :
    active_loop username (chunks.map ReadEvt.data ++ ReadEvt.eof :: rest) =
      chunks.map (fun c => SOp.broadcast (username ++ ": " ++ c) false) ++
        [SOp.broadcast (username ++ " has left the chat\n") false,
          SOp.removeSelf, SOp.ret true] := by
  induction chunks with
  | nil => rfl
  | cons c cs ih => simp [active_loop, ih]

/-- The active loop on a run of data chunks followed by a read error:
the chat broadcasts happen, then the handler returns the error without
any leave broadcast or registry removal. -/
theorem active_loop_ioErr (username : String) (chunks : List String)
    (rest : List ReadEvt) :
    active_loop username (chunks.map ReadEvt.data ++ ReadEvt.ioErr :: rest) =
      chunks.map (fun c => SOp.broadcast (username ++ ": " ++ c) false) ++
        [SOp.ret false] := by
  induction chunks with
  | nil => rfl
  | cons c cs ih => simp [active_loop, ih]

/-- C5 counterexample: when the very first read of the active loop
fails, the handler's trace is just the propagated error; contrary to the
claim, there is no leave broadcast and no registry removal. -/
theorem handler_error_skips_cleanup :
    active_loop "alice" [ReadEvt.ioErr] = [SOp.ret false] ∧
      SOp.removeSelf ∉ active_loop "alice" [ReadEvt.ioErr] ∧
      SOp.broadcast "alice has left the chat\n" false ∉
        active_loop "alice" [ReadEvt.ioErr] := by
  refine ⟨rfl, by decide, by decide⟩

/-- C5 amended: on a zero-byte read the handler broadcasts the leave
notice to all sessions except the sender, removes its registry entry,
and terminates successfully; on a read error it terminates at once with
the error, performing neither the leave broadcast nor the removal (a
broadcast excluding the sender can never deliver to the sender). -/
theorem handler_close_behaviour (username : String) (chunks : List String)
    (rest : List ReadEvt) :
    (active_loop username (chunks.map ReadEvt.data ++ ReadEvt.eof :: rest) =
      chunks.map (fun c => SOp.broadcast (username ++ ": " ++ c) false) ++
        [SOp.broadcast (username ++ " has left the chat\n") false,
          SOp.removeSelf, SOp.ret true]) ∧
    (active_loop username (chunks.map ReadEvt.data ++ ReadEvt.ioErr :: rest) =
      chunks.map (fun c => SOp.broadcast (username ++ ": " ++ c) false) ++
        [SOp.ret false]) ∧
    ∀ (sender : Nat) (wf : Nat → Bool) (reg : Registry),
      sender ∉ (broadcastPass sender false wf reg).1 :=
  ⟨active_loop_eof username chunks rest, active_loop_ioErr username chunks rest,
    fun sender wf reg => sender_not_delivered sender wf reg⟩

/-- C6: after a successful handshake with username `u` the handler first
registers the session, then broadcasts the join notice with
`include_sender = true`; each data chunk of the active phase is
broadcast as `"<u>: <chunk>"` with `include_sender = false`, and an
excluded-sender broadcast never delivers to the sender. -/
theorem handler_join_and_relay (u : String) (chunks : List String) :
    (∀ reads, handle_client_ops u reads =
      SOp.insertSelf u ::
        SOp.broadcast (u ++ " has joined the chat\n") true ::
        active_loop u reads) ∧
    (handle_client_ops u (chunks.map ReadEvt.data ++ [ReadEvt.eof]) =
      SOp.insertSelf u ::
        SOp.broadcast (u ++ " has joined the chat\n") true ::
        (chunks.map (fun c => SOp.broadcast (u ++ ": " ++ c) false) ++
          [SOp.broadcast (u ++ " has left the chat\n") false,
            SOp.removeSelf, SOp.ret true])) ∧
    ∀ (sender : Nat) (wf : Nat → Bool) (reg : Registry),
      sender ∉ (broadcastPass sender false wf reg).1 := by
  refine ⟨fun reads => rfl, ?_, fun sender wf reg => sender_not_delivered sender wf reg⟩
  simp [handle_client_ops, active_loop_eof]

/-
Client model (src/client/src/main.rs, the compiled client).  A history
entry is an author/content pair; the `ServerMessage` arm of `App::run`
parses one inbound chunk, and the `Enter` arm of
`App::handle_key_event` drives the outbound send path.
-/

/-- One entry of the client's chat history (`Message` in the client). -/
structure HistEntry where
  author : String
  content : String
deriving DecidableEq

/-- Split a character list at the first colon, as rust
`str::find(':')` followed by the two slices around the found byte
index; `none` when no colon occurs. -/
def splitAtFirstColon : List Char → Option (List Char × List Char)
  | [] => none
  | c :: rest =>
    if c = ':' then some ([], rest)
    else
      match splitAtFirstColon rest with
      | some (before, after) => some (c :: before, after)
      | none => none

/-- The `ServerMessage` arm of `App::run` (main.rs lines 297-315, and
identically in the unreferenced app.rs lines 170-188): trim
the chunk; an empty result yields no entry; otherwise split at the first
colon into trimmed author and trimmed content, or attribute the whole
trimmed text to "System" when there is no colon. -/
def parse_server_message (raw : String) : Option HistEntry :=
  let m := rustTrim raw
  if m = "" then none
  else
    match splitAtFirstColon m.data with
    | some (before, after) =>
        some ⟨rustTrim ⟨before⟩, rustTrim ⟨after⟩⟩
    | none => some ⟨"System", m⟩

/-- Processing one server chunk appends at most one history entry. -/
def process_server_message (msgs : List HistEntry) (raw : String) :
    List HistEntry :=
  match parse_server_message raw with
  | none => msgs
  | some e => msgs ++ [e]

/-- `splitAtFirstColon` finds nothing exactly when no colon occurs. -/
theorem splitAtFirstColon_eq_none_iff (l : List Char) :
    splitAtFirstColon l = none ↔ ':' ∉ l := by
  induction l with
  | nil => simp [splitAtFirstColon]
  | cons c rest ih =>
    by_cases hc : c = ':'
    · subst hc
      simp [splitAtFirstColon]
    · simp only [splitAtFirstColon, hc, if_false]
      rcases h : splitAtFirstColon rest with _ | p
      · simpa [List.mem_cons, hc, Ne.symm hc] using ih.mp h
      · simp only [List.mem_cons]
        constructor
        · intro hcontra; cases hcontra
        · intro hcontra
          rcases ih.mpr (fun hm => hcontra (Or.inr hm)) with h2
          rw [h] at h2
          cases h2

/-- C7: the client's inbound parsing rule.  A chunk trimming to empty
yields no history entry; a trimmed chunk containing a colon yields one
entry whose author is the trimmed text before the first colon and whose
content is the trimmed text after it; a trimmed non-empty chunk without
a colon yields one entry authored "System" carrying the whole trimmed
text; and the three concrete examples of the specification hold. -/
theorem inbound_parsing_rule :
    (∀ (msgs : List HistEntry) (raw : String), rustTrim raw = "" →
      process_server_message msgs raw = msgs) ∧
    (∀ raw : String, rustTrim raw ≠ "" →
      (∀ before after, splitAtFirstColon (rustTrim raw).data = some (before, after) →
        parse_server_message raw = some ⟨rustTrim ⟨before⟩, rustTrim ⟨after⟩⟩) ∧
      (splitAtFirstColon (rustTrim raw).data = none →
        parse_server_message raw = some ⟨"System", rustTrim raw⟩ ∧
        ':' ∉ (rustTrim raw).data)) ∧
    (∀ (msgs : List HistEntry) (raw : String) (e : HistEntry),
      parse_server_message raw = some e →
      process_server_message msgs raw = msgs ++ [e]) ∧
    parse_server_message "alice: hello\n" = some ⟨"alice", "hello"⟩ ∧
    parse_server_message "server rebooting\n" = some ⟨"System", "server rebooting"⟩ ∧
    process_server_message [] " \t \n " = [] := by
  refine ⟨?_, ?_, ?_, by decide, by decide, by decide⟩
  · intro msgs raw h
    simp [process_server_message, parse_server_message, h]
  · intro raw h
    constructor
    · intro before after hsplit
      simp [parse_server_message, h, hsplit]
    · intro hsplit
      refine ⟨by simp [parse_server_message, h, hsplit], ?_⟩
      exact (splitAtFirstColon_eq_none_iff _).mp hsplit
  · intro msgs raw e h
    simp [process_server_message, h]

/-- Witness for C7: the chunk "bob: hi there\n" appends exactly the
entry with author "bob" and content "hi there". -/
theorem inbound_parsing_rule_witness :
    process_server_message [] "bob: hi there\n" =
      [] ++ [⟨rustTrim ⟨['b', 'o', 'b']⟩, rustTrim ⟨[' ', 'h', 'i', ' ', 't', 'h', 'e', 'r', 'e']⟩⟩] := by
  have h := (inbound_parsing_rule.2.1 "bob: hi there\n" (by decide)).1
    ['b', 'o', 'b'] [' ', 'h', 'i', ' ', 't', 'h', 'e', 'r', 'e'] (by decide)
  exact inbound_parsing_rule.2.2.1 [] "bob: hi there\n" _ h

/-
Outbound send path (C8): the `KeyCode::Enter` arm of
`App::handle_key_event` in the compiled client
(src/client/src/main.rs lines 592-636).  src/client/src/main.rs
declares no modules, so it is the whole client crate; the unreferenced
copy of the arm in src/client/src/app.rs (lines 493-547) additionally
pushes a local-echo entry, but that file is not compiled.  The live arm
writes and flushes under the lock, pushes a "System" entry on each
failure, and clears the input — it never pushes an entry authored by
the user.  The state carries the fields the arm touches; the network
outcome of the single lock/write_all/flush attempt is an oracle.
-/

/-- The client-state fields read or written by the Enter arm. -/
structure ClientState where
  running : Bool
  input_text : String
  cursor_position : Nat
  messages : List HistEntry
deriving DecidableEq

/-- Outcome of the one `write_stream.lock()` / `write_all` / `flush`
attempt, each error case carrying the error's display text. -/
inductive SendOutcome where
  | sendOk : SendOutcome
  | writeFail : String → SendOutcome
  | flushFail : String → SendOutcome
  | lockFail : String → SendOutcome
deriving DecidableEq

/-- Model of the compiled client's Enter arm (main.rs lines 592-636):
with input trimming to empty nothing happens; otherwise the payload
`input_text ++ "\n"` is written and flushed under the lock, a failure
pushes one "System" entry describing it (no entry is pushed on
success), and the input field and cursor are cleared.  Returns the new
state and the list of payloads handed to `write_all`. -/
def handle_enter (st : ClientState) (outcome : SendOutcome) :
    ClientState × List String :=
  if rustTrim st.input_text = "" then (st, [])
  else
    let msgs :=
      match outcome with
      | SendOutcome.sendOk => st.messages
      | SendOutcome.writeFail e =>
          st.messages ++ [⟨"System", "Failed to write to server: " ++ e⟩]
      | SendOutcome.flushFail e =>
          st.messages ++ [⟨"System", "Failed to send message: " ++ e⟩]
      | SendOutcome.lockFail e =>
          st.messages ++ [⟨"System", "Failed to lock stream: " ++ e⟩]
    let written :=
      match outcome with
      | SendOutcome.lockFail _ => []
      | _ => [st.input_text ++ "\n"]
    ({ st with input_text := "", cursor_position := 0, messages := msgs }, written)

/-- C8 counterexample: submitting the non-empty text "hi" with a
succeeding write leaves the history unchanged — in particular no entry
authored by the user ("alice") is appended, refuting the claimed
local echo before the network write. -/
theorem submit_no_local_echo :
    rustTrim "hi" ≠ "" ∧
      (handle_enter ⟨true, "hi", 2, []⟩ SendOutcome.sendOk).1.messages = [] ∧
      (⟨"alice", "hi"⟩ : HistEntry) ∉
        (handle_enter ⟨true, "hi", 2, []⟩ SendOutcome.sendOk).1.messages ∧
      (handle_enter ⟨true, "hi", 2, []⟩ SendOutcome.sendOk).2 = ["hi" ++ "\n"] := by
  refine ⟨by decide, by decide, by decide, by decide⟩

/-- C8 amended: on a submit whose text is non-empty after trimming, the
single written payload is the text plus a trailing newline (none when
the lock fails); a successful send appends no history entry at all —
there is no local echo — and each failure appends exactly one "System"
entry describing it, so every appended entry is authored "System"; the
running flag is untouched and at most one write is attempted (no
disconnect, no retry); and the input field and cursor are cleared. -/
theorem submit_send_path (st : ClientState) (outcome : SendOutcome)
    (h : rustTrim st.input_text ≠ "") :
    (outcome = SendOutcome.sendOk →
      (handle_enter st outcome).1.messages = st.messages ∧
        (handle_enter st outcome).2 = [st.input_text ++ "\n"]) ∧
    (∀ e, outcome = SendOutcome.writeFail e →
      (handle_enter st outcome).1.messages =
          st.messages ++ [⟨"System", "Failed to write to server: " ++ e⟩] ∧
        (handle_enter st outcome).2 = [st.input_text ++ "\n"]) ∧
    (∀ e, outcome = SendOutcome.flushFail e →
      (handle_enter st outcome).1.messages =
          st.messages ++ [⟨"System", "Failed to send message: " ++ e⟩] ∧
        (handle_enter st outcome).2 = [st.input_text ++ "\n"]) ∧
    (∀ e, outcome = SendOutcome.lockFail e →
      (handle_enter st outcome).1.messages =
          st.messages ++ [⟨"System", "Failed to lock stream: " ++ e⟩] ∧
        (handle_enter st outcome).2 = []) ∧
    (∀ m ∈ (handle_enter st outcome).1.messages,
      m ∈ st.messages ∨ m.author = "System") ∧
    (handle_enter st outcome).1.running = st.running ∧
    (handle_enter st outcome).2.length ≤ 1 ∧
    (handle_enter st outcome).1.input_text = "" ∧
    (handle_enter st outcome).1.cursor_position = 0 := by
  have hmem : ∀ (msgs : List HistEntry) (e : String),
      ∀ m ∈ msgs ++ [(⟨"System", e⟩ : HistEntry)], m ∈ msgs ∨ m.author = "System" := by
    intro msgs e m hm
    rcases List.mem_append.mp hm with h1 | h1
    · exact Or.inl h1
    · simp at h1
      subst h1
      exact Or.inr rfl
  rcases outcome with _ | e | e | e <;>
    refine ⟨?_, ?_, ?_, ?_, ?_, ?_, ?_, ?_, ?_⟩ <;>
    simp [handle_enter, h] <;>
    first
      | (intro m hm; exact hmem st.messages _ m (by simpa using hm))
      | (intro m hm; exact Or.inl hm)
      | rfl

/-- Witness for the amended C8 at a concrete state: pending text "hi",
a flush failure: exactly one "System" failure entry is appended, the
payload was "hi\n", and the input is cleared. -/
theorem submit_send_path_witness :
    ((handle_enter ⟨true, "hi", 2, []⟩ (SendOutcome.flushFail "broken pipe")).1.messages =
        [] ++ [⟨"System", "Failed to send message: " ++ "broken pipe"⟩]) ∧
    ((handle_enter ⟨true, "hi", 2, []⟩ (SendOutcome.flushFail "broken pipe")).2 =
        ["hi" ++ "\n"]) ∧
    ((handle_enter ⟨true, "hi", 2, []⟩ (SendOutcome.flushFail "broken pipe")).1.input_text = "") := by
  have h := submit_send_path ⟨true, "hi", 2, []⟩
    (SendOutcome.flushFail "broken pipe") (by decide)
  have h2 := h.2.2.1 "broken pipe" rfl
  exact ⟨h2.1, h2.2, h.2.2.2.2.2.2.2.1⟩

/-
Network producer (C9): `handle_server_messages`
(main.rs lines 167-189, and identically in the unreferenced
src/client/src/events.rs lines 24-46).  Socket reads are modelled as a
list of outcomes; the function returns the `ServerMessage` event texts
it sends over the channel, in order, stopping at the first EOF or
error.
-/

/-- One socket-read outcome seen by the client's network producer. -/
inductive NetRead where
  | chunk : String → NetRead
  | eof : NetRead
  | rerr : String → NetRead
deriving DecidableEq

/-- Model of `handle_server_messages`: a non-empty read whose decoded
text is not pure whitespace is forwarded verbatim; a whitespace-only
chunk is dropped; a zero-byte read emits "Server disconnected" and
stops; a read error emits "Connection error: <e>" and stops. -/
def handle_server_messages : List NetRead → List String
  | [] => []
  | NetRead.chunk s :: rest =>
      if rustTrim s = "" then handle_server_messages rest
      else s :: handle_server_messages rest
  | NetRead.eof :: _ => ["Server disconnected"]
  | NetRead.rerr e :: _ => ["Connection error: " ++ e]

/-- Whether a read outcome is a data chunk. -/
def NetRead.isChunk : NetRead → Bool
  | NetRead.chunk _ => true
  | _ => false

/-- The text a data chunk contributes: dropped if whitespace-only. -/
def NetRead.emittedText : NetRead → Option String
  | NetRead.chunk s => if rustTrim s = "" then none else some s
  | _ => none

/-- The closed form of the producer's output: the non-whitespace chunks
before the first EOF or error, followed by the terminal notice, after
which nothing is ever emitted. -/
def producerOutput (reads : List NetRead) : List String :=
  (reads.takeWhile NetRead.isChunk).filterMap NetRead.emittedText ++
    (match reads.dropWhile NetRead.isChunk with
     | NetRead.eof :: _ => ["Server disconnected"]
     | NetRead.rerr e :: _ => ["Connection error: " ++ e]
     | _ => [])

/-- C9 counterexample: a non-empty read consisting of a single space (a
one-byte read, so n = 1 ≠ 0) emits no server-text event at all,
contrary to the claim that every non-empty read emits exactly one. -/
theorem whitespace_chunk_dropped :
    handle_server_messages [NetRead.chunk " "] = [] ∧
      handle_server_messages [NetRead.chunk " ", NetRead.eof] =
        ["Server disconnected"] := by
  constructor <;> decide

/-- C9 amended: the producer forwards each non-whitespace chunk as one
event carrying the raw decoded text, silently drops whitespace-only
chunks, and on the first zero-byte read or read error emits exactly one
terminal notice and stops emitting forever. -/
theorem producer_emission (reads : List NetRead) :
    handle_server_messages reads = producerOutput reads := by
  induction reads with
  | nil => rfl
  | cons r rest ih =>
    rcases r with s | _ | e
    · by_cases hs : rustTrim s = ""
      · simp [handle_server_messages, hs, producerOutput, NetRead.isChunk,
          List.takeWhile_cons, List.dropWhile_cons, NetRead.emittedText, ih]
      · simp [handle_server_messages, hs, producerOutput, NetRead.isChunk,
          List.takeWhile_cons, List.dropWhile_cons, NetRead.emittedText, ih]
    · rfl
    · rfl

/-
Byte-level handshake reads (C10).  `get_username` reads each candidate
into `let mut buf = [0u8; 32]`, so at most the first 32 bytes of the
line arrive, and decodes them with `String::from_utf8_lossy`, which
replaces each invalid or truncated UTF-8 sequence by U+FFFD following
the maximal-subpart rule.
-/

/-- The Unicode replacement character U+FFFD. -/
def replChar : Char := Char.ofNat 0xFFFD

/-- Whether a byte is a UTF-8 continuation byte (0x80-0xBF). -/
def isUtf8Cont (b : Nat) : Bool := decide (0x80 ≤ b) && decide (b ≤ 0xBF)

/-- Lower bound of the valid first-continuation range for a multi-byte
leader (0xE0 and 0xF0 exclude overlong encodings). -/
def firstContLo (b0 : Nat) : Nat :=
  if b0 = 0xE0 then 0xA0 else if b0 = 0xF0 then 0x90 else 0x80

/-- Upper bound of the valid first-continuation range for a multi-byte
leader (0xED excludes surrogates, 0xF4 values above U+10FFFF). -/
def firstContHi (b0 : Nat) : Nat :=
  if b0 = 0xED then 0x9F else if b0 = 0xF4 then 0x8F else 0xBF

/-- Whether `b1` is a valid first continuation byte after leader `b0`. -/
def validFirstCont (b0 b1 : Nat) : Bool :=
  decide (firstContLo b0 ≤ b1) && decide (b1 ≤ firstContHi b0)

/-- Model of `String::from_utf8_lossy` on a byte list: well-formed
sequences decode to their scalar value; each maximal subpart of an
ill-formed sequence, and a truncated sequence at the end of the input,
becomes one U+FFFD. -/
def utf8DecodeLossy : List Nat → List Char
  | [] => []
  | b0 :: rest =>
    if b0 < 0x80 then Char.ofNat b0 :: utf8DecodeLossy rest
    else if b0 < 0xC2 then replChar :: utf8DecodeLossy rest
    else if b0 < 0xE0 then
      match rest with
      | [] => [replChar]
      | b1 :: rest2 =>
        if isUtf8Cont b1 then
          Char.ofNat ((b0 - 0xC0) * 0x40 + (b1 - 0x80)) :: utf8DecodeLossy rest2
        else replChar :: utf8DecodeLossy (b1 :: rest2)
    else if b0 < 0xF0 then
      match rest with
      | [] => [replChar]
      | b1 :: rest2 =>
        if validFirstCont b0 b1 then
          match rest2 with
          | [] => [replChar]
          | b2 :: rest3 =>
            if isUtf8Cont b2 then
              Char.ofNat ((b0 - 0xE0) * 0x1000 + (b1 - 0x80) * 0x40 + (b2 - 0x80)) ::
                utf8DecodeLossy rest3
            else replChar :: utf8DecodeLossy (b2 :: rest3)
        else replChar :: utf8DecodeLossy (b1 :: rest2)
    else if b0 < 0xF5 then
      match rest with
      | [] => [replChar]
      | b1 :: rest2 =>
        if validFirstCont b0 b1 then
          match rest2 with
          | [] => [replChar]
          | b2 :: rest3 =>
            if isUtf8Cont b2 then
              match rest3 with
              | [] => [replChar]
              | b3 :: rest4 =>
                if isUtf8Cont b3 then
                  Char.ofNat ((b0 - 0xF0) * 0x40000 + (b1 - 0x80) * 0x1000 +
                      (b2 - 0x80) * 0x40 + (b3 - 0x80)) :: utf8DecodeLossy rest4
                else replChar :: utf8DecodeLossy (b3 :: rest4)
            else replChar :: utf8DecodeLossy (b2 :: rest3)
        else replChar :: utf8DecodeLossy (b1 :: rest2)
    else replChar :: utf8DecodeLossy rest

/-- `String::from_utf8_lossy` as a string. -/
def from_utf8_lossy (bytes : List Nat) : String := ⟨utf8DecodeLossy bytes⟩

/-- One handshake read: `stream.read` into the 32-byte buffer keeps at
most the first 32 bytes of the candidate line, then the slice
`buf[..n]` is decoded lossily. -/
def read_candidate (bytes : List Nat) : String :=
  from_utf8_lossy (bytes.take 32)

/-- `get_username` over raw byte reads: each read is truncated to the
32-byte buffer and decoded before trimming and validation. -/
def get_username_bytes (reg : Registry) (reads : List (List Nat)) : Option String :=
  get_username reg (reads.map read_candidate)

/-- C10 counterexample: the 33-byte line of 31 `a`s followed by the
2-byte encoding of é is cut at 32 bytes, leaving a truncated lead byte
0xC3; the decoded candidate `"aaa…a�"` is accepted against the
empty registry, and its UTF-8 length is 34 bytes — more than 32, so the
returned username is not bounded by 32 bytes. -/
theorem username_exceeds_32_bytes :
    get_username_bytes [] [List.replicate 31 97 ++ [195, 169]] =
        some ⟨List.replicate 31 'a' ++ [replChar]⟩ ∧
      (⟨List.replicate 31 'a' ++ [replChar]⟩ : String).utf8ByteSize = 34 ∧
      ¬(⟨List.replicate 31 'a' ++ [replChar]⟩ : String).utf8ByteSize ≤ 32 := by
  refine ⟨by decide, by decide, by decide⟩

/-- C10 amended: the candidate is truncated to its first (at most) 32
bytes before trimming and validation — the handshake result only
depends on each read's 32-byte prefix — and a truncated multi-byte
UTF-8 character is replaced by U+FFFD rather than rejected, as on the
concrete read of 31 `a`s and a dangling 0xC3 lead byte, which is
accepted; the decoded username may however exceed 32 bytes. -/
theorem username_byte_truncation :
    (∀ (reg : Registry) (reads : List (List Nat)),
      get_username_bytes reg reads =
        get_username_bytes reg (reads.map fun b => b.take 32)) ∧
    read_candidate (List.replicate 31 97 ++ [195]) =
        ⟨List.replicate 31 'a' ++ [replChar]⟩ ∧
    get_username_bytes [] [List.replicate 31 97 ++ [195]] =
        some ⟨List.replicate 31 'a' ++ [replChar]⟩ := by
  refine ⟨?_, by decide, by decide⟩
  intro reg reads
  have hrc : (read_candidate ∘ fun b : List Nat => b.take 32) = read_candidate := by
    funext b
    simp [read_candidate, List.take_take]
  simp [get_username_bytes, List.map_map, hrc]

end TcpTalk
